import Mathlib

/-
Verification of the footfall-tracker aggregation, validation and entry-store
core.  The Python source is shallowly embedded: the entry table is a list of
rows, dates are integers (days on a time line, weekday given by value mod 7,
0 = Monday), machine floats used for percentages are modelled by rationals,
and the stateful save/delete operations are explicit state passing over a
record holding the entry rows, the autoincrement counter and the audit log.
-/

namespace Footfall

/-- A row of the footfall_entries table (database/models.py). -/
structure Entry where
  entry_id : Nat
  date : Int
  hour_slot : Nat
  floor_id : Nat
  count : Int
  entered_by : Nat
  entered_at : Nat
  source : String
  notes : Option String
deriving Repr, DecidableEq

/-- Python truthiness of an optional integer argument: None and 0 are falsy.
Used for the floor_id filters written as if floor_id in entry_service.py. -/
def pyTruthy : Option Nat → Bool
  | none => false
  | some n => n != 0

/-- Sort key of get_entries_for_date: ORDER BY hour_slot, floor_id. -/
def hourFloorLe (a b : Entry) : Bool :=
  a.hour_slot < b.hour_slot || (a.hour_slot == b.hour_slot && a.floor_id ≤ b.floor_id)

/-- Sort key of get_entries_for_date_range: ORDER BY date, hour_slot. -/
def dateHourLe (a b : Entry) : Bool :=
  a.date < b.date || (a.date == b.date && a.hour_slot ≤ b.hour_slot)

/-- Insert an entry into a list sorted by le, before the first element not
below it. -/
def insertBy (le : Entry → Entry → Bool) (e : Entry) : List Entry → List Entry
  | [] => [e]
  | x :: xs => if le e x then e :: x :: xs else x :: insertBy le e xs

/-- Insertion sort modelling the ORDER BY clause of a query. -/
def sortBy (le : Entry → Entry → Bool) : List Entry → List Entry
  | [] => []
  | x :: xs => insertBy le x (sortBy le xs)

/-- get_entries_for_date (services/entry_service.py): filter by date, filter by
floor only when the floor argument is truthy, order by hour slot then floor. -/
def get_entries_for_date (store : List Entry) (entry_date : Int)
    (floor_id : Option Nat) : List Entry :=
  let q := store.filter (fun e => e.date == entry_date)
  let q := if pyTruthy floor_id then q.filter (fun e => some e.floor_id == floor_id) else q
  sortBy hourFloorLe q

/-- get_entries_for_date_range (services/entry_service.py). -/
def get_entries_for_date_range (store : List Entry) (start_date end_date : Int)
    (floor_id : Option Nat) : List Entry :=
  let q := store.filter (fun e => start_date ≤ e.date && e.date ≤ end_date)
  let q := if pyTruthy floor_id then q.filter (fun e => some e.floor_id == floor_id) else q
  sortBy dateHourLe q

/-- get_daily_total (services/metrics_service.py). -/
def get_daily_total (store : List Entry) (entry_date : Int) (floor_id : Option Nat) : Int :=
  ((get_entries_for_date store entry_date floor_id).map (·.count)).sum

/-- One step of building the hourly defaultdict: Python dicts keep insertion
order, so a new hour key is appended at the end and an existing key is
incremented in place. -/
def bumpHour : List (Nat × Int) → Nat → Int → List (Nat × Int)
  | [], h, c => [(h, c)]
  | (k, v) :: rest, h, c =>
    if k = h then (k, v + c) :: rest else (k, v) :: bumpHour rest h c

/-- get_hourly_trend (services/metrics_service.py): hour to summed count, as an
insertion-ordered association list mirroring the Python defaultdict. -/
def get_hourly_trend (store : List Entry) (entry_date : Int)
    (floor_id : Option Nat) : List (Nat × Int) :=
  (get_entries_for_date store entry_date floor_id).foldl
    (fun acc e => bumpHour acc e.hour_slot e.count) []

/-- Python max over dict keys with key function: the fold keeps the current
best on ties, so the first key attaining the maximum wins. -/
def pyMaxBySnd (x : Nat × Int) (xs : List (Nat × Int)) : Nat × Int :=
  xs.foldl (fun best y => if y.2 > best.2 then y else best) x

/-- get_peak_hour (services/metrics_service.py): none models the (None, 0)
return on an empty day. -/
def get_peak_hour (store : List Entry) (entry_date : Int) : Option (Nat × Int) :=
  match get_hourly_trend store entry_date none with
  | [] => none
  | x :: xs => some (pyMaxBySnd x xs)

/-- get_rolling_average (services/metrics_service.py), translated branch by
branch: only entries between start_date and end_date are fetched, daily totals
come from that fetched set, and the inner filter condition is kept verbatim. -/
def get_rolling_average (store : List Entry) (end_date : Int) (days : Nat) :
    List (Int × ℚ) :=
  let start_date : Int := end_date - ((days : Int) - 1)
  let entries := get_entries_for_date_range store start_date end_date none
  let daily_total : Int → Int := fun d =>
    ((entries.filter (fun e => e.date == d)).map (·.count)).sum
  (List.range days).map (fun (i : Nat) =>
    let current_date := start_date + (i : Int)
    let window_start := current_date - ((days : Int) - 1)
    let window_values :=
      ((List.range days).filter (fun (j : Nat) => window_start + (j : Int) ≤ current_date)).map
        (fun (j : Nat) => daily_total (window_start + (j : Int)))
    (current_date,
      if window_values.length > 0 then
        (window_values.sum : ℚ) / (window_values.length : ℚ)
      else 0))

/-- Input to validate_footfall_count: the Python value may be absent,
non-numeric, or an integer. -/
inductive CountInput where
  | empty : CountInput
  | nonNumeric : String → CountInput
  | num : Int → CountInput
deriving Repr, DecidableEq

/-- validate_footfall_count (utils/validators.py); max_value is the configured
maximum (setting max_footfall_value, default 10000). -/
def validate_footfall_count (count : CountInput) (max_value : Int) : Bool × String :=
  match count with
  | .empty => (false, "Count cannot be empty")
  | .nonNumeric _ => (false, "Count must be a number")
  | .num c =>
    if c < 0 then (false, "Count cannot be negative")
    else if c > max_value then
      (false, "Count exceeds maximum allowed value (" ++ toString max_value ++ ")")
    else (true, "")

/-- detect_spike (utils/validators.py); threshold is the configured
spike_threshold_percent (default 50). -/
def detect_spike (new_count : Int) (previous_count : Option Int) (threshold : Int) :
    Bool × ℚ :=
  match previous_count with
  | none => (false, 0)
  | some p =>
    if p = 0 then (false, 0)
    else
      let percent_change : ℚ := (((new_count : ℚ) - (p : ℚ)) / (p : ℚ)) * 100
      (decide (percent_change > (threshold : ℚ)), percent_change)

/-- Round a rational to the nearest integer, ties to even, modelling the
rounding used by Python float formatting on exactly representable values.
Computed from numerator and denominator so it evaluates by kernel reduction:
f is the floor of q and r2 over twice the denominator is the fractional part. -/
def roundHalfEven (q : ℚ) : ℤ :=
  let n := q.num
  let d : ℤ := (q.den : ℤ)
  let f := Int.ediv n d
  let r2 := 2 * (n - f * d)
  if r2 < d then f
  else if r2 > d then f + 1
  else if Int.emod f 2 = 0 then f else f + 1

/-- Model of the Python format string for a signed percentage with one decimal
digit, as used for the Change columns in comparison_service.py. -/
def formatChange (q : ℚ) : String :=
  let sign := if q < 0 then "-" else "+"
  let mag := if q < 0 then -q else q
  let tenths := (roundHalfEven (mag * 10)).toNat
  sign ++ toString (tenths / 10) ++ "." ++ toString (tenths % 10) ++ "%"

/-- format_hour_slot (utils/datetime_utils.py). -/
def format_hour_slot (hour : Nat) : String :=
  if hour = 0 then "12 AM"
  else if hour < 12 then toString hour ++ " AM"
  else if hour = 12 then "12 PM"
  else toString (hour - 12) ++ " PM"

/-- Lookup in the Python dict comprehension keyed by (hour_slot, floor_id) with
default 0: on duplicate keys the last list element wins. -/
def dictLookup (entries : List Entry) (h f : Nat) : Int :=
  match entries.reverse.find? (fun e => e.hour_slot == h && e.floor_id == f) with
  | some e => e.count
  | none => 0

/-- The floor selection shared by the comparison functions: the full floor
list when the filter argument is falsy, else the floors kept by the filter. -/
def selectedFloors (floors floor_ids : List Nat) : List Nat :=
  if floor_ids.isEmpty then floors else floors.filter (fun f => floor_ids.contains f)

/-- Per-hour total of compare_days over the selected floors. -/
def lookupSum (entries : List Entry) (sel : List Nat) (h : Nat) : Int :=
  (sel.map (fun f => dictLookup entries h f)).sum

/-- Daily total over the selected floors as computed by compare_same_weekday:
the entries of the date restricted to the selected floor ids. -/
def floorFilteredTotal (store : List Entry) (sel : List Nat) (d : Int) : Int :=
  (((get_entries_for_date store d none).filter
    (fun e => sel.contains e.floor_id)).map (·.count)).sum

/-- Daily total of the fetched range as used by the rolling-average
defaultdict: only entries with date between the bounds contribute. -/
def fetchedDailyTotal (store : List Entry) (start_d end_d d : Int) : Int :=
  (((get_entries_for_date_range store start_d end_d none).filter
    (fun e => e.date == d)).map (·.count)).sum

/-- The mean of the collected day totals computed by compare_same_weekday:
sum of the totals over their number, as a rational. -/
def weekdayAvg (store : List Entry) (sel : List Nat) (dates : List Int) : ℚ :=
  (((dates.map (fun d => floorFilteredTotal store sel d)).sum : Int) : ℚ) /
    (((dates.map (fun d => floorFilteredTotal store sel d)).length : Nat) : ℚ)

/-- A row of the comparison table built by compare_days. -/
structure CompareRow where
  label : String
  value1 : Int
  value2 : Int
  change : String
deriving Repr, DecidableEq

/-- The repeated change-column computation of comparison_service.py: a signed
percentage against the second value when it is positive, else N/A. -/
def changeStr (v1 v2 : Int) : String :=
  if v2 > 0 then formatChange ((((v1 : ℚ) - (v2 : ℚ)) / (v2 : ℚ)) * 100) else "N/A"

/-- compare_days (services/comparison_service.py).  hours is the configured
hour-slot list, floors the active floor ids in display order, floor_ids the
optional filter (empty list is falsy in Python). -/
def compare_days (store : List Entry) (date1 date2 : Int) (hours : List Nat)
    (floors : List Nat) (floor_ids : List Nat) : List CompareRow :=
  let sel := selectedFloors floors floor_ids
  let entries1 := get_entries_for_date store date1 none
  let entries2 := get_entries_for_date store date2 none
  let rows := hours.map (fun h =>
    let v1 := lookupSum entries1 sel h
    let v2 := lookupSum entries2 sel h
    CompareRow.mk (format_hour_slot h) v1 v2 (changeStr v1 v2))
  let total1 := (rows.map (·.value1)).sum
  let total2 := (rows.map (·.value2)).sum
  rows ++ [CompareRow.mk "TOTAL" total1 total2 (changeStr total1 total2)]

/-- Weekday of an integer date in the model calendar: value mod 7, 0 = Monday,
mirroring Python date.weekday(). -/
def weekday (d : Int) : Nat := (d % 7).toNat

/-- get_date_range (utils/datetime_utils.py): all dates from start to end
inclusive, empty when the range is reversed. -/
def get_date_range (start_d end_d : Int) : List Int :=
  (List.range (end_d - start_d + 1).toNat).map (fun (i : Nat) => start_d + (i : Int))

/-- get_same_weekday_dates (utils/datetime_utils.py). -/
def get_same_weekday_dates (start_d end_d : Int) (wd : Nat) : List Int :=
  (get_date_range start_d end_d).filter (fun d => weekday d == wd)

/-- A row of the table built by compare_same_weekday; vsAvg is none when the
code never writes the vs Avg column. -/
structure WeekdayRow where
  row_date : Int
  total : Int
  vsAvg : Option String
deriving Repr, DecidableEq

/-- compare_same_weekday (services/comparison_service.py): one row per matching
date with the floor-filtered total; the vs Avg column is added only when at
least two rows were collected. -/
def compare_same_weekday (store : List Entry) (start_d end_d : Int) (wd : Nat)
    (floors : List Nat) (floor_ids : List Nat) : List WeekdayRow :=
  let dates := get_same_weekday_dates start_d end_d wd
  let sel := selectedFloors floors floor_ids
  let rows := dates.map (fun d => WeekdayRow.mk d (floorFilteredTotal store sel d) none)
  if rows.length ≥ 2 then
    let totals : List Int := rows.map (fun r => r.total)
    let avg : ℚ := (totals.sum : ℚ) / (totals.length : ℚ)
    rows.map (fun r =>
      if avg > 0 then
        WeekdayRow.mk r.row_date r.total
          (some (formatChange ((((r.total : ℚ) - avg) / avg) * 100)))
      else WeekdayRow.mk r.row_date r.total (some "N/A"))
  else rows

/-- get_average, the dashboard multi-period averaging helper defined inside
show_admin_dashboard (app.py): averages daily totals excluding zero-valued
days, returning none when no day has a positive total. -/
def get_average (store : List Entry) (days_list : List Int) : Option ℚ :=
  let totals := days_list.map (fun d => get_daily_total store d none)
  let valid_totals := totals.filter (fun t => 0 < t)
  if valid_totals.isEmpty then none
  else some ((valid_totals.sum : ℚ) / (valid_totals.length : ℚ))

/-- Insert a comma every three characters of a least-significant-first digit
list, modelling the thousands grouping of Python number formatting. -/
def group3 : List Char → List Char
  | a :: b :: c :: d :: rest => a :: b :: c :: ',' :: group3 (d :: rest)
  | l => l
termination_by l => l.length

/-- Model of the Python grouped no-decimal float format used for the
comparison value in format_comparison (app.py). -/
def fmtGrouped (q : ℚ) : String :=
  let sign := if q < 0 then "-" else ""
  let mag := if q < 0 then -q else q
  let n := (roundHalfEven mag).toNat
  sign ++ String.mk (group3 (toString n).toList.reverse).reverse

/-- format_comparison (app.py, inside show_admin_dashboard): N/A with no delta
when the comparison value is absent or zero. -/
def format_comparison (current : Int) (comparison : Option ℚ) : String × Option ℚ :=
  match comparison with
  | none => ("N/A", none)
  | some c =>
    if c = 0 then ("N/A", none)
    else (fmtGrouped c, some ((((current : ℚ) - c) / c) * 100))

/-- Flat key-value snapshot carried by an audit record; a field is some when
the corresponding key is present in the Python dict. -/
structure Snapshot where
  s_date : Option Int
  s_hour_slot : Option Nat
  s_floor_id : Option Nat
  s_count : Option Int
  s_entered_by : Option Nat
  s_entered_at : Option Nat
  s_notes : Option (Option String)
deriving Repr, DecidableEq

/-- A row of the audit_log table as written by log_change. -/
structure AuditRec where
  table_name : String
  record_id : Nat
  action : String
  old_value : Option Snapshot
  new_value : Option Snapshot
  changed_by : Nat
deriving Repr, DecidableEq

/-- The mutable database state: entry rows, the autoincrement counter for
entry ids, and the append-only audit log. -/
structure DB where
  entries : List Entry
  next_id : Nat
  audit : List AuditRec
deriving Repr, DecidableEq

/-- The empty database. -/
def DB.init : DB := ⟨[], 1, []⟩

/-- The WHERE clause shared by get_entry and save_entry: match on the
(date, hour_slot, floor_id) triple. -/
def matchesTriple (e : Entry) (d : Int) (h f : Nat) : Bool :=
  e.date == d && e.hour_slot == h && e.floor_id == f

/-- Replace the first list element satisfying p, modelling a mutation of the
row returned by query(...).first(). -/
def updateFirst (p : Entry → Bool) (f : Entry → Entry) : List Entry → List Entry
  | [] => []
  | e :: rest => if p e then f e :: rest else e :: updateFirst p f rest

/-- Remove the first list element satisfying p, modelling db.delete on the row
returned by query(...).first(). -/
def removeFirst (p : Entry → Bool) : List Entry → List Entry
  | [] => []
  | e :: rest => if p e then rest else e :: removeFirst p rest

/-- save_entry (services/entry_service.py): update the existing row for the
(date, hour, floor) triple and log an UPDATE, or insert a fresh row and log an
INSERT.  Returns the new state with (success, message, was_update). -/
def save_entry (st : DB) (entry_date : Int) (hour_slot floor_id : Nat)
    (count : Int) (user_id : Nat) (notes : Option String) (source : String)
    (now : Nat) : DB × (Bool × String × Bool) :=
  match st.entries.find? (fun e => matchesTriple e entry_date hour_slot floor_id) with
  | some existing =>
    let old_value : Snapshot :=
      ⟨none, none, none, some existing.count, some existing.entered_by,
       some existing.entered_at, some existing.notes⟩
    let new_value : Snapshot :=
      ⟨none, none, none, some count, some user_id, some now, some notes⟩
    let entries := updateFirst (fun e => matchesTriple e entry_date hour_slot floor_id)
      (fun e =>
        { e with
          count := count
          notes := notes
          entered_by := user_id
          entered_at := now }) st.entries
    let logRec := AuditRec.mk "footfall_entries" existing.entry_id "UPDATE"
      (some old_value) (some new_value) user_id
    (⟨entries, st.next_id, st.audit ++ [logRec]⟩, (true, "Entry updated", true))
  | none =>
    let new_entry : Entry :=
      ⟨st.next_id, entry_date, hour_slot, floor_id, count, user_id, now, source, notes⟩
    let new_value : Snapshot :=
      ⟨some entry_date, some hour_slot, some floor_id, some count, some user_id,
       none, some notes⟩
    let logRec := AuditRec.mk "footfall_entries" st.next_id "INSERT"
      none (some new_value) user_id
    (⟨st.entries ++ [new_entry], st.next_id + 1, st.audit ++ [logRec]⟩,
     (true, "Entry saved", false))

/-- delete_entry (services/entry_service.py): remove the row with the given id
and log a DELETE with the pre-delete snapshot, or return false unchanged. -/
def delete_entry (st : DB) (entry_id : Nat) (user_id : Nat) : DB × Bool :=
  match st.entries.find? (fun e => e.entry_id == entry_id) with
  | some entry =>
    let old_value : Snapshot :=
      ⟨some entry.date, some entry.hour_slot, some entry.floor_id, some entry.count,
       none, none, none⟩
    let logRec := AuditRec.mk "footfall_entries" entry_id "DELETE"
      (some old_value) none user_id
    (⟨removeFirst (fun e => e.entry_id == entry_id) st.entries, st.next_id,
      st.audit ++ [logRec]⟩, true)
  | none => (st, false)

/-- Arguments of one save_entry call, for reasoning about call sequences. -/
structure SaveOp where
  op_date : Int
  op_hour : Nat
  op_floor : Nat
  op_count : Int
  op_user : Nat
  op_notes : Option String
  op_source : String
  op_now : Nat

/-- Apply a sequence of save_entry calls to a state. -/
def applySaves (st : DB) : List SaveOp → DB
  | [] => st
  | op :: rest =>
    applySaves (save_entry st op.op_date op.op_hour op.op_floor op.op_count
      op.op_user op.op_notes op.op_source op.op_now).1 rest

/-- The (date, hour_slot, floor_id) key of a row. -/
def tripleOf (e : Entry) : Int × Nat × Nat := (e.date, e.hour_slot, e.floor_id)

/-- The uniqueness invariant of the footfall_entries table: no two rows share
the (date, hour_slot, floor_id) triple. -/
def Uniq (st : DB) : Prop := (st.entries.map tripleOf).Pairwise (· ≠ ·)

/-- Number of rows holding a given (date, hour, floor) triple. -/
def countTriple (st : DB) (d : Int) (h f : Nat) : Nat :=
  (st.entries.filter (fun e => matchesTriple e d h f)).length

/-- Concrete store with a peak tie: hours 9 and 11 both sum to 5 on date 0. -/
def storePeakTie : List Entry :=
  [⟨1, 0, 11, 1, 5, 1, 0, "manual", none⟩, ⟨2, 0, 9, 1, 5, 1, 0, "manual", none⟩]

/-- Concrete store holding a single day of value 70 at date 6; dates 0 to 5
have no entries. -/
def storeSeventy : List Entry := [⟨1, 6, 9, 1, 70, 1, 0, "manual", none⟩]

/-- Concrete store with one entry at date 8, before the range fetched by
get_rolling_average with end date 10 and window 2. -/
def storeBeforeWindow : List Entry := [⟨1, 8, 9, 1, 10, 1, 0, "manual", none⟩]

/-- Concrete store for day comparison: hour 9 totals 10 on date 0 and 5 on
date 1. -/
def storeCompareDays : List Entry :=
  [⟨1, 0, 9, 1, 10, 1, 0, "manual", none⟩, ⟨2, 1, 9, 1, 5, 1, 0, "manual", none⟩]

/-- Concrete store with exactly one occurrence of weekday 0 in range 0..0. -/
def storeWeekdayOne : List Entry := [⟨1, 0, 9, 1, 10, 1, 0, "manual", none⟩]

/-- Concrete store with two occurrences of weekday 0 (dates 0 and 7) with
totals 10 and 30. -/
def storeWeekdayTwo : List Entry :=
  [⟨1, 0, 9, 1, 10, 1, 0, "manual", none⟩, ⟨2, 7, 9, 1, 30, 1, 0, "manual", none⟩]

/-- Concrete database with a single entry row with id 1. -/
def dbOneEntry : DB := ⟨[⟨1, 0, 9, 1, 10, 1, 0, "manual", none⟩], 2, []⟩

/- Helper lemmas about the insertion sort modelling the ORDER BY clauses. -/

theorem mem_insertBy (le : Entry → Entry → Bool) (e a : Entry) (l : List Entry) :
    a ∈ insertBy le e l ↔ a = e ∨ a ∈ l := by
  induction l with
  | nil => simp [insertBy]
  | cons x xs ih =>
    cases hle : le e x with
    | true => simp [insertBy, hle]
    | false =>
      simp only [insertBy, hle, Bool.false_eq_true, if_false, List.mem_cons, ih]
      tauto

theorem perm_insertBy (le : Entry → Entry → Bool) (e : Entry) (l : List Entry) :
    List.Perm (insertBy le e l) (e :: l) := by
  induction l with
  | nil => simp [insertBy]
  | cons x xs ih =>
    cases hle : le e x with
    | true => simp [insertBy, hle]
    | false =>
      simp only [insertBy, hle, Bool.false_eq_true, if_false]
      exact (ih.cons x).trans (List.Perm.swap e x xs)

theorem perm_sortBy (le : Entry → Entry → Bool) (l : List Entry) :
    List.Perm (sortBy le l) l := by
  induction l with
  | nil => rfl
  | cons x xs ih => exact (perm_insertBy le x (sortBy le xs)).trans (ih.cons x)

theorem pairwise_insertBy (le : Entry → Entry → Bool)
    (htot : ∀ a b, (le a b || le b a) = true)
    (htrans : ∀ a b c, le a b = true → le b c = true → le a c = true)
    (e : Entry) (l : List Entry) (h : l.Pairwise (fun a b => le a b = true)) :
    (insertBy le e l).Pairwise (fun a b => le a b = true) := by
  induction l with
  | nil => simp [insertBy]
  | cons x xs ih =>
    obtain ⟨hx, hxs⟩ := List.pairwise_cons.1 h
    cases hle : le e x with
    | true =>
      simp only [insertBy, hle, if_true]
      refine List.pairwise_cons.2 ⟨?_, h⟩
      intro b hb
      rcases List.mem_cons.1 hb with rfl | hb
      · exact hle
      · exact htrans e x b hle (hx b hb)
    | false =>
      have hxe : le x e = true := by
        have := htot e x
        rw [hle] at this
        simpa using this
      simp only [insertBy, hle, Bool.false_eq_true, if_false]
      refine List.pairwise_cons.2 ⟨?_, ih hxs⟩
      intro b hb
      rcases (mem_insertBy le e b xs).1 hb with rfl | hb
      · exact hxe
      · exact hx b hb

theorem pairwise_sortBy (le : Entry → Entry → Bool)
    (htot : ∀ a b, (le a b || le b a) = true)
    (htrans : ∀ a b c, le a b = true → le b c = true → le a c = true)
    (l : List Entry) : (sortBy le l).Pairwise (fun a b => le a b = true) := by
  induction l with
  | nil => simp [sortBy]
  | cons x xs ih => exact pairwise_insertBy le htot htrans x (sortBy le xs) ih

theorem hourFloorLe_total : ∀ a b, (hourFloorLe a b || hourFloorLe b a) = true := by
  intro a b
  simp only [hourFloorLe, Bool.or_eq_true, Bool.and_eq_true, decide_eq_true_eq,
    beq_iff_eq]
  omega

theorem hourFloorLe_trans :
    ∀ a b c, hourFloorLe a b = true → hourFloorLe b c = true → hourFloorLe a c = true := by
  intro a b c hab hbc
  simp only [hourFloorLe, Bool.or_eq_true, Bool.and_eq_true, decide_eq_true_eq,
    beq_iff_eq] at hab hbc ⊢
  omega

theorem dateHourLe_total : ∀ a b, (dateHourLe a b || dateHourLe b a) = true := by
  intro a b
  simp only [dateHourLe, Bool.or_eq_true, Bool.and_eq_true, decide_eq_true_eq,
    beq_iff_eq]
  omega

theorem dateHourLe_trans :
    ∀ a b c, dateHourLe a b = true → dateHourLe b c = true → dateHourLe a c = true := by
  intro a b c hab hbc
  simp only [dateHourLe, Bool.or_eq_true, Bool.and_eq_true, decide_eq_true_eq,
    beq_iff_eq] at hab hbc ⊢
  omega

/-- C9: passing floor id 0 to the entry-read operations applies no floor
filter: the results coincide with passing no floor at all, for the single-date
and range reads and for the daily total and hourly trend built on them. -/
theorem floor_zero_is_no_filter (store : List Entry) (d d2 : Int) :
    get_entries_for_date store d (some 0) = get_entries_for_date store d none ∧
    get_entries_for_date_range store d d2 (some 0) =
      get_entries_for_date_range store d d2 none ∧
    get_daily_total store d (some 0) = get_daily_total store d none ∧
    get_hourly_trend store d (some 0) = get_hourly_trend store d none :=
  ⟨rfl, rfl, rfl, rfl⟩

/-- C5: validate_footfall_count accepts an integer count exactly when it lies
between 0 and the configured maximum, and rejects -1, maximum plus one, an
absent value and a non-numeric value. -/
theorem validate_footfall_count_spec (max_value c : Int) :
    (validate_footfall_count (.num c) max_value = (true, "") ↔ 0 ≤ c ∧ c ≤ max_value) ∧
    ((validate_footfall_count (.num c) max_value).1 = true ↔ 0 ≤ c ∧ c ≤ max_value) ∧
    (validate_footfall_count (.num (-1)) max_value).1 = false ∧
    (validate_footfall_count (.num (max_value + 1)) max_value).1 = false ∧
    (validate_footfall_count .empty max_value).1 = false ∧
    (∀ s, (validate_footfall_count (.nonNumeric s) max_value).1 = false) := by
  refine ⟨?_, ?_, ?_, ?_, rfl, fun s => rfl⟩
  · simp only [validate_footfall_count]
    split_ifs with h1 h2
    · exact iff_of_false (by simp) (by omega)
    · exact iff_of_false (by simp) (by omega)
    · exact iff_of_true rfl (by omega)
  · simp only [validate_footfall_count]
    split_ifs with h1 h2
    · exact iff_of_false (by simp) (by omega)
    · exact iff_of_false (by simp) (by omega)
    · exact iff_of_true rfl (by omega)
  · norm_num [validate_footfall_count]
  · simp only [validate_footfall_count]
    split_ifs with h1 h2
    · rfl
    · rfl
    · exfalso; omega

/-- C4: detect_spike never flags a spike when the previous count is absent or
zero and returns percent change 0; otherwise the percent change is
(new - previous) / previous * 100 and the spike flag holds exactly when that
change strictly exceeds the threshold, so at threshold 50 a move from 100 to
150 is not a spike while a move from 100 to 151 is. -/
theorem detect_spike_spec (new_count p threshold : Int) :
    detect_spike new_count none threshold = (false, 0) ∧
    detect_spike new_count (some 0) threshold = (false, 0) ∧
    (p ≠ 0 →
      (detect_spike new_count (some p) threshold).2 =
        (((new_count : ℚ) - (p : ℚ)) / (p : ℚ)) * 100 ∧
      ((detect_spike new_count (some p) threshold).1 = true ↔
        (((new_count : ℚ) - (p : ℚ)) / (p : ℚ)) * 100 > (threshold : ℚ))) ∧
    (detect_spike 150 (some 100) 50).1 = false ∧
    (detect_spike 151 (some 100) 50).1 = true := by
  refine ⟨rfl, rfl, ?_, ?_, ?_⟩
  · intro hp
    simp [detect_spike, hp]
  · with_unfolding_all decide
  · with_unfolding_all decide

/-- Closed witness for the hypotheses of detect_spike_spec, instantiated at a
previous count of 100. -/
theorem detect_spike_spec_witness :
    (100 : Int) ≠ 0 ∧
    ((detect_spike 151 (some 100) 50).2 = (((151 : ℚ) - (100 : ℚ)) / (100 : ℚ)) * 100 ∧
      ((detect_spike 151 (some 100) 50).1 = true ↔
        (((151 : ℚ) - (100 : ℚ)) / (100 : ℚ)) * 100 > (50 : ℚ))) :=
  ⟨by decide, (detect_spike_spec 151 100 50).2.2.1 (by decide)⟩

/- Helper lemmas about the hourly aggregation and the Python max. -/

theorem bumpHour_keys (acc : List (Nat × Int)) (h : Nat) (c : Int) :
    (bumpHour acc h c).map Prod.fst =
      if h ∈ acc.map Prod.fst then acc.map Prod.fst else acc.map Prod.fst ++ [h] := by
  induction acc with
  | nil => simp [bumpHour]
  | cons kv rest ih =>
    obtain ⟨k, v⟩ := kv
    by_cases hk : k = h
    · subst hk
      simp [bumpHour]
    · by_cases hm : h ∈ rest.map Prod.fst
      · simp [bumpHour, hk, ih, hm, Ne.symm hk]
      · simp [bumpHour, hk, ih, hm, Ne.symm hk]

theorem bumpHour_ne_nil (acc : List (Nat × Int)) (h : Nat) (c : Int) :
    bumpHour acc h c ≠ [] := by
  cases acc with
  | nil => simp [bumpHour]
  | cons kv rest =>
    obtain ⟨k, v⟩ := kv
    by_cases hk : k = h <;> simp [bumpHour, hk]

theorem foldl_bump_ne_nil (entries : List Entry) (acc : List (Nat × Int))
    (hacc : acc ≠ []) :
    entries.foldl (fun acc e => bumpHour acc e.hour_slot e.count) acc ≠ [] := by
  induction entries generalizing acc with
  | nil => exact hacc
  | cons e rest ih =>
    rw [List.foldl_cons]
    exact ih _ (bumpHour_ne_nil acc e.hour_slot e.count)

theorem foldl_bump_keys_sorted (entries : List Entry) (acc : List (Nat × Int))
    (hent : entries.Pairwise (fun a b => a.hour_slot ≤ b.hour_slot))
    (hacc : (acc.map Prod.fst).Pairwise (· < ·))
    (hle : ∀ k ∈ acc.map Prod.fst, ∀ e ∈ entries, k ≤ e.hour_slot) :
    ((entries.foldl (fun acc e => bumpHour acc e.hour_slot e.count) acc).map
      Prod.fst).Pairwise (· < ·) := by
  induction entries generalizing acc with
  | nil => simpa using hacc
  | cons e rest ih =>
    obtain ⟨he, hrest⟩ := List.pairwise_cons.1 hent
    rw [List.foldl_cons]
    apply ih _ hrest
    · rw [bumpHour_keys]
      by_cases hm : e.hour_slot ∈ acc.map Prod.fst
      · simpa [hm] using hacc
      · rw [if_neg hm, List.pairwise_append]
        refine ⟨hacc, by simp, ?_⟩
        intro k hk b hb
        simp only [List.mem_singleton] at hb
        subst hb
        have h1 := hle k hk e (List.mem_cons_self e rest)
        exact lt_of_le_of_ne h1 (fun hkeq => hm (hkeq ▸ hk))
    · intro k hk e2 he2
      rw [bumpHour_keys] at hk
      by_cases hm : e.hour_slot ∈ acc.map Prod.fst
      · rw [if_pos hm] at hk
        exact hle k hk e2 (List.mem_cons_of_mem e he2)
      · rw [if_neg hm] at hk
        rcases List.mem_append.1 hk with hk | hk
        · exact hle k hk e2 (List.mem_cons_of_mem e he2)
        · simp only [List.mem_singleton] at hk
          subst hk
          exact he e2 he2

theorem entries_pairwise_hour (store : List Entry) (d : Int) (fid : Option Nat) :
    (get_entries_for_date store d fid).Pairwise (fun a b => a.hour_slot ≤ b.hour_slot) := by
  have h := pairwise_sortBy hourFloorLe hourFloorLe_total hourFloorLe_trans
    (if pyTruthy fid then
      (store.filter (fun e => e.date == d)).filter (fun e => some e.floor_id == fid)
     else store.filter (fun e => e.date == d))
  have heq : get_entries_for_date store d fid =
      sortBy hourFloorLe
        (if pyTruthy fid then
          (store.filter (fun e => e.date == d)).filter (fun e => some e.floor_id == fid)
         else store.filter (fun e => e.date == d)) := by
    simp only [get_entries_for_date]
  rw [heq]
  refine h.imp ?_
  intro a b hab
  simp only [hourFloorLe, Bool.or_eq_true, Bool.and_eq_true, decide_eq_true_eq,
    beq_iff_eq] at hab
  omega

theorem hourly_trend_keys_sorted (store : List Entry) (d : Int) (fid : Option Nat) :
    ((get_hourly_trend store d fid).map Prod.fst).Pairwise (· < ·) := by
  refine foldl_bump_keys_sorted _ [] (entries_pairwise_hour store d fid) (by simp) ?_
  simp

theorem pyMaxBySnd_mem (xs : List (Nat × Int)) : ∀ x : Nat × Int,
    pyMaxBySnd x xs ∈ x :: xs ∧ (∀ y ∈ x :: xs, y.2 ≤ (pyMaxBySnd x xs).2) ∧
      (pyMaxBySnd x xs = x ∨ x.2 < (pyMaxBySnd x xs).2) := by
  induction xs with
  | nil =>
    intro x
    refine ⟨List.mem_cons_self x [], ?_, Or.inl rfl⟩
    intro y hy
    simp only [List.mem_singleton] at hy
    subst hy
    exact le_refl _
  | cons y ys ih =>
    intro x
    by_cases hxy : y.2 > x.2
    · have hz : pyMaxBySnd x (y :: ys) = pyMaxBySnd y ys := by
        simp [pyMaxBySnd, hxy]
      obtain ⟨m1, m2, m3⟩ := ih y
      rw [hz]
      refine ⟨List.mem_cons_of_mem x m1, ?_, ?_⟩
      · intro w hw
        rcases List.mem_cons.1 hw with rfl | hw
        · exact le_trans (le_of_lt hxy) (m2 y (List.mem_cons_self y ys))
        · exact m2 w hw
      · right
        rcases m3 with hres | hlt
        · rw [hres]; exact hxy
        · exact lt_trans hxy hlt
    · have hz : pyMaxBySnd x (y :: ys) = pyMaxBySnd x ys := by
        simp [pyMaxBySnd, hxy]
      obtain ⟨m1, m2, m3⟩ := ih x
      rw [hz]
      refine ⟨?_, ?_, m3⟩
      · rcases List.mem_cons.1 m1 with hres | hmem
        · rw [hres]; exact List.mem_cons_self x (y :: ys)
        · exact List.mem_cons_of_mem x (List.mem_cons_of_mem y hmem)
      · intro w hw
        rcases List.mem_cons.1 hw with rfl | hw
        · exact m2 _ (List.mem_cons_self _ _)
        rcases List.mem_cons.1 hw with rfl | hw
        · exact le_trans (le_of_not_lt hxy) (m2 _ (List.mem_cons_self _ _))
        · exact m2 w (List.mem_cons_of_mem _ hw)

theorem pyMaxBySnd_first (xs : List (Nat × Int)) : ∀ x : Nat × Int,
    ((x :: xs).map Prod.fst).Pairwise (· < ·) →
    ∀ y ∈ x :: xs, y.2 = (pyMaxBySnd x xs).2 → (pyMaxBySnd x xs).1 ≤ y.1 := by
  induction xs with
  | nil =>
    intro x hkeys y hy hval
    simp only [List.mem_singleton] at hy
    subst hy
    exact le_refl _
  | cons y ys ih =>
    intro x hkeys w hw hval
    obtain ⟨hxhead, hkeys1⟩ := List.pairwise_cons.1 hkeys
    by_cases hxy : y.2 > x.2
    · have hz : pyMaxBySnd x (y :: ys) = pyMaxBySnd y ys := by
        simp [pyMaxBySnd, hxy]
      rw [hz] at hval ⊢
      rcases List.mem_cons.1 hw with rfl | hw2
      · obtain ⟨_, m2, _⟩ := pyMaxBySnd_mem ys y
        have hy2 := m2 y (List.mem_cons_self y ys)
        omega
      · exact ih y hkeys1 w hw2 hval
    · have hz : pyMaxBySnd x (y :: ys) = pyMaxBySnd x ys := by
        simp [pyMaxBySnd, hxy]
      rw [hz] at hval ⊢
      have hkeys2 : ((x :: ys).map Prod.fst).Pairwise (· < ·) := by
        obtain ⟨hyhead, hkeysys⟩ := List.pairwise_cons.1 hkeys1
        refine List.pairwise_cons.2 ⟨?_, hkeysys⟩
        intro b hb
        exact hxhead b (List.mem_cons_of_mem _ hb)
      rcases List.mem_cons.1 hw with rfl | hw2
      · exact ih _ hkeys2 _ (List.mem_cons_self _ _) hval
      rcases List.mem_cons.1 hw2 with rfl | hw3
      · obtain ⟨_, _, m3⟩ := pyMaxBySnd_mem ys x
        rcases m3 with hres | hlt
        · rw [hres]
          exact le_of_lt (hxhead w.1 (by simp))
        · omega
      · exact ih x hkeys2 w (List.mem_cons_of_mem x hw3) hval

theorem trend_ne_nil (store : List Entry) (d : Int)
    (h : get_entries_for_date store d none ≠ []) :
    get_hourly_trend store d none ≠ [] := by
  unfold get_hourly_trend
  cases hE : get_entries_for_date store d none with
  | nil => exact absurd hE h
  | cons e rest =>
    rw [List.foldl_cons]
    exact foldl_bump_ne_nil rest _ (bumpHour_ne_nil [] e.hour_slot e.count)

/-- C10: on a date with at least one entry, get_peak_hour returns a pair of an
hour and the maximal hour total; among hours tied for the maximum it returns
the numerically smallest, because the entries are read in ascending hour order
and the Python max keeps the first key attaining the maximum. -/
theorem peak_hour_earliest_on_tie (store : List Entry) (d : Int)
    (hne : get_entries_for_date store d none ≠ []) :
    ∃ h c, get_peak_hour store d = some (h, c) ∧
      (h, c) ∈ get_hourly_trend store d none ∧
      (∀ p ∈ get_hourly_trend store d none, p.2 ≤ c) ∧
      (∀ p ∈ get_hourly_trend store d none, p.2 = c → h ≤ p.1) := by
  have htrend := trend_ne_nil store d hne
  rcases hT : get_hourly_trend store d none with _ | ⟨x, xs⟩
  · exact absurd hT htrend
  · have hpeak : get_peak_hour store d = some (pyMaxBySnd x xs) := by
      unfold get_peak_hour
      rw [hT]
    obtain ⟨m1, m2, _⟩ := pyMaxBySnd_mem xs x
    have hkeys := hourly_trend_keys_sorted store d none
    rw [hT] at hkeys
    have hfirst := pyMaxBySnd_first xs x hkeys
    refine ⟨(pyMaxBySnd x xs).1, (pyMaxBySnd x xs).2, ?_, ?_, ?_, ?_⟩
    · rw [hpeak]
    · simpa using m1
    · simpa using m2
    · simpa using hfirst

/-- Closed witness for peak_hour_earliest_on_tie: on storePeakTie hours 9 and
11 tie at 5, and the peak is reported at the earlier hour 9. -/
theorem peak_hour_earliest_on_tie_witness :
    (get_entries_for_date storePeakTie 0 none ≠ [] ∧
      ∃ h c, get_peak_hour storePeakTie 0 = some (h, c) ∧
        (h, c) ∈ get_hourly_trend storePeakTie 0 none ∧
        (∀ p ∈ get_hourly_trend storePeakTie 0 none, p.2 ≤ c) ∧
        (∀ p ∈ get_hourly_trend storePeakTie 0 none, p.2 = c → h ≤ p.1)) ∧
    get_peak_hour storePeakTie 0 = some (9, 5) :=
  ⟨⟨by decide, peak_hour_earliest_on_tie storePeakTie 0 (by decide)⟩, by decide⟩

/- Helper lemmas for the save and delete state transitions. -/

theorem save_entry_of_found (st : DB) (d : Int) (h f : Nat) (c : Int) (uid : Nat)
    (notes : Option String) (src : String) (now : Nat) (ex : Entry)
    (hfind : st.entries.find? (fun e => matchesTriple e d h f) = some ex) :
    save_entry st d h f c uid notes src now =
      (⟨updateFirst (fun e => matchesTriple e d h f)
          (fun e =>
            { e with
              count := c
              notes := notes
              entered_by := uid
              entered_at := now }) st.entries,
        st.next_id,
        st.audit ++ [AuditRec.mk "footfall_entries" ex.entry_id "UPDATE"
          (some ⟨none, none, none, some ex.count, some ex.entered_by,
            some ex.entered_at, some ex.notes⟩)
          (some ⟨none, none, none, some c, some uid, some now, some notes⟩) uid]⟩,
       (true, "Entry updated", true)) := by
  unfold save_entry
  rw [hfind]

theorem save_entry_of_not_found (st : DB) (d : Int) (h f : Nat) (c : Int) (uid : Nat)
    (notes : Option String) (src : String) (now : Nat)
    (hfind : st.entries.find? (fun e => matchesTriple e d h f) = none) :
    save_entry st d h f c uid notes src now =
      (⟨st.entries ++ [⟨st.next_id, d, h, f, c, uid, now, src, notes⟩], st.next_id + 1,
        st.audit ++ [AuditRec.mk "footfall_entries" st.next_id "INSERT" none
          (some ⟨some d, some h, some f, some c, some uid, none, some notes⟩) uid]⟩,
       (true, "Entry saved", false)) := by
  unfold save_entry
  rw [hfind]

theorem matchesTriple_iff (e : Entry) (d : Int) (h f : Nat) :
    matchesTriple e d h f = true ↔ tripleOf e = (d, h, f) := by
  simp only [matchesTriple, tripleOf, Bool.and_eq_true, beq_iff_eq, Prod.mk.injEq]
  tauto

theorem updateFirst_map_tripleOf (p : Entry → Bool) (f : Entry → Entry)
    (hpres : ∀ e, p e = true → tripleOf (f e) = tripleOf e) (l : List Entry) :
    (updateFirst p f l).map tripleOf = l.map tripleOf := by
  induction l with
  | nil => rfl
  | cons x xs ih =>
    by_cases hx : p x = true
    · simp [updateFirst, hx, hpres x hx]
    · simp [updateFirst, hx, ih]

theorem save_entry_uniq (st : DB) (d : Int) (h f : Nat) (c : Int) (uid : Nat)
    (notes : Option String) (src : String) (now : Nat) (hU : Uniq st) :
    Uniq (save_entry st d h f c uid notes src now).1 := by
  cases hfind : st.entries.find? (fun e => matchesTriple e d h f) with
  | some ex =>
    rw [save_entry_of_found st d h f c uid notes src now ex hfind]
    unfold Uniq at hU ⊢
    rw [updateFirst_map_tripleOf]
    · exact hU
    · intro e hpe
      simp [tripleOf]
  | none =>
    rw [save_entry_of_not_found st d h f c uid notes src now hfind]
    unfold Uniq at hU ⊢
    simp only [List.map_append, List.map_cons, List.map_nil]
    rw [List.pairwise_append]
    refine ⟨hU, by simp, ?_⟩
    intro a ha b hb
    simp only [List.mem_singleton] at hb
    subst hb
    rcases List.mem_map.1 ha with ⟨e, he, rfl⟩
    have hnp := List.find?_eq_none.1 hfind e he
    intro hcontra
    apply hnp
    rw [matchesTriple_iff]
    simpa [tripleOf] using hcontra

theorem applySaves_uniq (ops : List SaveOp) :
    ∀ st : DB, Uniq st → Uniq (applySaves st ops) := by
  induction ops with
  | nil => intro st hU; exact hU
  | cons op rest ih =>
    intro st hU
    exact ih _ (save_entry_uniq st op.op_date op.op_hour op.op_floor op.op_count
      op.op_user op.op_notes op.op_source op.op_now hU)

theorem save_entry_one_audit (st : DB) (d : Int) (h f : Nat) (c : Int) (uid : Nat)
    (notes : Option String) (src : String) (now : Nat) :
    (save_entry st d h f c uid notes src now).1.audit.length = st.audit.length + 1 ∧
    (save_entry st d h f c uid notes src now).2.1 = true := by
  cases hfind : st.entries.find? (fun e => matchesTriple e d h f) with
  | some ex =>
    rw [save_entry_of_found st d h f c uid notes src now ex hfind]
    simp
  | none =>
    rw [save_entry_of_not_found st d h f c uid notes src now hfind]
    simp

theorem find?_append_of_none {p : Entry → Bool} {l1 : List Entry} (l2 : List Entry)
    (h : l1.find? p = none) : (l1 ++ l2).find? p = l2.find? p := by
  induction l1 with
  | nil => rfl
  | cons x xs ih =>
    by_cases hx : p x = true
    · rw [List.find?_cons_of_pos _ hx] at h
      exact absurd h (by simp)
    · rw [List.find?_cons_of_neg _ (by simpa using hx)] at h
      rw [List.cons_append, List.find?_cons_of_neg _ (by simpa using hx)]
      exact ih h

theorem updateFirst_append_of_none (p : Entry → Bool) (f : Entry → Entry)
    (l1 l2 : List Entry) (h : ∀ e ∈ l1, ¬ p e = true) :
    updateFirst p f (l1 ++ l2) = l1 ++ updateFirst p f l2 := by
  induction l1 with
  | nil => rfl
  | cons x xs ih =>
    have hx : p x = false := by
      have := h x (List.mem_cons_self x xs)
      simpa using this
    rw [List.cons_append]
    simp only [updateFirst, hx, Bool.false_eq_true, if_false, List.cons_append]
    rw [ih (fun e he => h e (List.mem_cons_of_mem x he))]

/-- C1: the (date, hour, floor) triple stays unique under any sequence of
save_entry calls from the empty store; every successful save_entry appends
exactly one audit record; and two saves of the same fresh triple with
different counts leave exactly one row, whose id is the one assigned by the
first call and whose count is the second count, appending exactly an INSERT
record then an UPDATE record for that row id. -/
theorem save_entry_unique_triple_and_audit :
    (∀ ops : List SaveOp, Uniq (applySaves DB.init ops)) ∧
    (∀ (st : DB) (d : Int) (h f : Nat) (c : Int) (uid : Nat) (notes : Option String)
      (src : String) (now : Nat),
      (save_entry st d h f c uid notes src now).1.audit.length = st.audit.length + 1 ∧
      (save_entry st d h f c uid notes src now).2.1 = true) ∧
    (∀ (st : DB) (d : Int) (h f : Nat) (c1 c2 : Int) (uid1 uid2 : Nat)
      (n1 n2 : Option String) (s1 s2 : String) (t1 t2 : Nat),
      c1 ≠ c2 →
      st.entries.find? (fun e => matchesTriple e d h f) = none →
      (countTriple (save_entry (save_entry st d h f c1 uid1 n1 s1 t1).1
          d h f c2 uid2 n2 s2 t2).1 d h f = 1 ∧
       (∃ r, (save_entry (save_entry st d h f c1 uid1 n1 s1 t1).1
            d h f c2 uid2 n2 s2 t2).1.entries.find? (fun e => matchesTriple e d h f) =
              some r ∧
          r.entry_id = st.next_id ∧ r.count = c2) ∧
       (∃ r1 r2, (save_entry (save_entry st d h f c1 uid1 n1 s1 t1).1
            d h f c2 uid2 n2 s2 t2).1.audit = st.audit ++ [r1, r2] ∧
          r1.action = "INSERT" ∧ r2.action = "UPDATE" ∧
          r1.record_id = st.next_id ∧ r2.record_id = st.next_id))) := by
  refine ⟨?_, ?_, ?_⟩
  · intro ops
    exact applySaves_uniq ops DB.init (by simp [Uniq, DB.init])
  · intro st d h f c uid notes src now
    exact save_entry_one_audit st d h f c uid notes src now
  · intro st d h f c1 c2 uid1 uid2 n1 n2 s1 s2 t1 t2 hne hfind
    have hall : ∀ e ∈ st.entries, ¬ (fun e => matchesTriple e d h f) e = true :=
      List.find?_eq_none.1 hfind
    rw [save_entry_of_not_found st d h f c1 uid1 n1 s1 t1 hfind]
    have hpnew : matchesTriple (⟨st.next_id, d, h, f, c1, uid1, t1, s1, n1⟩ : Entry)
        d h f = true := by
      simp [matchesTriple]
    have hfind1 :
        (st.entries ++ [(⟨st.next_id, d, h, f, c1, uid1, t1, s1, n1⟩ : Entry)]).find?
          (fun e => matchesTriple e d h f) =
          some (⟨st.next_id, d, h, f, c1, uid1, t1, s1, n1⟩ : Entry) := by
      rw [find?_append_of_none _ hfind]
      exact List.find?_cons_of_pos _ hpnew
    rw [save_entry_of_found _ d h f c2 uid2 n2 s2 t2 _ hfind1]
    have hupd : updateFirst (fun e => matchesTriple e d h f)
        (fun e =>
          { e with
            count := c2
            notes := n2
            entered_by := uid2
            entered_at := t2 })
        (st.entries ++ [(⟨st.next_id, d, h, f, c1, uid1, t1, s1, n1⟩ : Entry)]) =
        st.entries ++ [(⟨st.next_id, d, h, f, c2, uid2, t2, s1, n2⟩ : Entry)] := by
      rw [updateFirst_append_of_none _ _ _ _ hall]
      simp [updateFirst, hpnew]
    refine ⟨?_, ?_, ?_⟩
    · unfold countTriple
      simp only [hupd, List.filter_append]
      rw [List.filter_eq_nil_iff.2 (by simpa using hall)]
      simp [matchesTriple]
    · refine ⟨⟨st.next_id, d, h, f, c2, uid2, t2, s1, n2⟩, ?_, rfl, rfl⟩
      simp only [hupd]
      rw [find?_append_of_none _ hfind]
      exact List.find?_cons_of_pos _ (by simp [matchesTriple])
    · refine ⟨AuditRec.mk "footfall_entries" st.next_id "INSERT" none
        (some ⟨some d, some h, some f, some c1, some uid1, none, some n1⟩) uid1,
        AuditRec.mk "footfall_entries" st.next_id "UPDATE"
        (some ⟨none, none, none, some c1, some uid1, some t1, some n1⟩)
        (some ⟨none, none, none, some c2, some uid2, some t2, some n2⟩) uid2,
        ?_, rfl, rfl, rfl, rfl⟩
      simp

/-- Closed witness for save_entry_unique_triple_and_audit: two saves of the
triple (0, 9, 1) on the empty database with counts 10 then 20. -/
theorem save_entry_unique_triple_and_audit_witness :
    (10 : Int) ≠ 20 ∧
    DB.init.entries.find? (fun e => matchesTriple e 0 9 1) = none ∧
    (countTriple (save_entry (save_entry DB.init 0 9 1 10 1 none "manual" 0).1
        0 9 1 20 1 none "manual" 0).1 0 9 1 = 1 ∧
     (∃ r, (save_entry (save_entry DB.init 0 9 1 10 1 none "manual" 0).1
          0 9 1 20 1 none "manual" 0).1.entries.find? (fun e => matchesTriple e 0 9 1) =
            some r ∧
        r.entry_id = DB.init.next_id ∧ r.count = 20) ∧
     (∃ r1 r2, (save_entry (save_entry DB.init 0 9 1 10 1 none "manual" 0).1
          0 9 1 20 1 none "manual" 0).1.audit = DB.init.audit ++ [r1, r2] ∧
        r1.action = "INSERT" ∧ r2.action = "UPDATE" ∧
        r1.record_id = DB.init.next_id ∧ r2.record_id = DB.init.next_id)) :=
  ⟨by decide, rfl,
    save_entry_unique_triple_and_audit.2.2 DB.init 0 9 1 10 20 1 1 none none
      "manual" "manual" 0 0 (by decide) rfl⟩

theorem find?_some_split (p : Entry → Bool) (l : List Entry) (e : Entry)
    (h : l.find? p = some e) :
    p e = true ∧ ∃ l1 l2, l = l1 ++ e :: l2 ∧ (∀ x ∈ l1, ¬ p x = true) ∧
      removeFirst p l = l1 ++ l2 := by
  induction l with
  | nil => simp at h
  | cons x xs ih =>
    by_cases hx : p x = true
    · rw [List.find?_cons_of_pos _ hx] at h
      have hxe : x = e := by simpa using h
      subst hxe
      exact ⟨hx, [], xs, by simp, by simp, by simp [removeFirst, hx]⟩
    · rw [List.find?_cons_of_neg _ (by simpa using hx)] at h
      obtain ⟨hpe, l1, l2, hsplit, hnone, hrem⟩ := ih h
      refine ⟨hpe, x :: l1, l2, by simp [hsplit], ?_, ?_⟩
      · intro z hz
        rcases List.mem_cons.1 hz with rfl | hz
        · exact hx
        · exact hnone z hz
      · simp only [removeFirst, hx, Bool.false_eq_true, if_false, hrem,
          List.cons_append]

/-- C7: delete_entry on a missing id returns false and changes nothing, and on
an existing id removes exactly that row, returns true and appends exactly one
DELETE audit record whose old snapshot holds the date, hour, floor and count
of the removed row. -/
theorem delete_entry_spec (st : DB) (eid uid : Nat) :
    (st.entries.find? (fun e => e.entry_id == eid) = none →
      delete_entry st eid uid = (st, false)) ∧
    (∀ e, st.entries.find? (fun e2 => e2.entry_id == eid) = some e →
      (delete_entry st eid uid).2 = true ∧
      (∃ l1 l2, st.entries = l1 ++ e :: l2 ∧
        (delete_entry st eid uid).1.entries = l1 ++ l2 ∧
        (∀ x ∈ l1, ¬ (x.entry_id == eid) = true)) ∧
      (delete_entry st eid uid).1.audit = st.audit ++
        [AuditRec.mk "footfall_entries" eid "DELETE"
          (some ⟨some e.date, some e.hour_slot, some e.floor_id, some e.count,
            none, none, none⟩) none uid] ∧
      (delete_entry st eid uid).1.next_id = st.next_id) := by
  constructor
  · intro hfind
    unfold delete_entry
    rw [hfind]
  · intro e hfind
    obtain ⟨hpe, l1, l2, hsplit, hnone, hrem⟩ :=
      find?_some_split (fun e2 => e2.entry_id == eid) st.entries e hfind
    unfold delete_entry
    rw [hfind]
    exact ⟨rfl, ⟨l1, l2, hsplit, hrem, hnone⟩, rfl, rfl⟩

/-- Closed witness for delete_entry_spec: on dbOneEntry, deleting the missing
id 5 is a no-op returning false, and deleting the existing id 1 removes the
row and appends the DELETE audit record with its pre-delete snapshot. -/
theorem delete_entry_spec_witness :
    (dbOneEntry.entries.find? (fun e => e.entry_id == 5) = none ∧
      delete_entry dbOneEntry 5 1 = (dbOneEntry, false)) ∧
    (dbOneEntry.entries.find? (fun e2 => e2.entry_id == 1) =
        some ⟨1, 0, 9, 1, 10, 1, 0, "manual", none⟩ ∧
      ((delete_entry dbOneEntry 1 1).2 = true ∧
       (∃ l1 l2, dbOneEntry.entries = l1 ++ (⟨1, 0, 9, 1, 10, 1, 0, "manual", none⟩ : Entry) :: l2 ∧
         (delete_entry dbOneEntry 1 1).1.entries = l1 ++ l2 ∧
         (∀ x ∈ l1, ¬ (x.entry_id == 1) = true)) ∧
       (delete_entry dbOneEntry 1 1).1.audit = dbOneEntry.audit ++
         [AuditRec.mk "footfall_entries" 1 "DELETE"
           (some ⟨some 0, some 9, some 1, some 10, none, none, none⟩) none 1] ∧
       (delete_entry dbOneEntry 1 1).1.next_id = dbOneEntry.next_id)) :=
  ⟨⟨by decide, (delete_entry_spec dbOneEntry 5 1).1 (by decide)⟩,
   ⟨by decide, (delete_entry_spec dbOneEntry 1 1).2
      ⟨1, 0, 9, 1, 10, 1, 0, "manual", none⟩ (by decide)⟩⟩

/- Helper lemmas relating the sorted reads to plain filters of the store. -/

theorem date_none_eq (store : List Entry) (d : Int) :
    get_entries_for_date store d none =
      sortBy hourFloorLe (store.filter (fun e => e.date == d)) := rfl

theorem range_none_eq (store : List Entry) (s e : Int) :
    get_entries_for_date_range store s e none =
      sortBy dateHourLe (store.filter (fun x => s ≤ x.date && x.date ≤ e)) := rfl

theorem sum_counts_sortBy (le : Entry → Entry → Bool) (l : List Entry) :
    ((sortBy le l).map (·.count)).sum = (l.map (·.count)).sum :=
  ((perm_sortBy le l).map _).sum_eq

theorem get_daily_total_eq (store : List Entry) (d : Int) :
    get_daily_total store d none =
      ((store.filter (fun e => e.date == d)).map (·.count)).sum := by
  unfold get_daily_total
  rw [date_none_eq]
  exact sum_counts_sortBy _ _

/-- C3: the dashboard multi-period averaging helper averages only the days
with a strictly positive total: days whose total is zero drop out of both
numerator and denominator, a list of all-zero days yields no value, which
format_comparison then displays as N/A, and this contrasts with
rolling_average, which keeps zero days in the denominator: on a week holding a
single day of 70, get_average yields 70 while the rolling average at the final
day yields 10. -/
theorem get_average_excludes_zero_days (store : List Entry) (days_list : List Int) :
    ((∀ d ∈ days_list, get_daily_total store d none = 0) →
      get_average store days_list = none) ∧
    (∀ d0, get_daily_total store d0 none = 0 →
      get_average store (d0 :: days_list) = get_average store days_list) ∧
    ((days_list.map (fun d => get_daily_total store d none)).filter (fun t => 0 < t) ≠ [] →
      get_average store days_list =
        some (((((days_list.map (fun d => get_daily_total store d none)).filter
            (fun t => 0 < t)).sum : ℚ)) /
          ((((days_list.map (fun d => get_daily_total store d none)).filter
            (fun t => 0 < t)).length : ℚ)))) ∧
    (∀ t : Int, format_comparison t none = ("N/A", none)) ∧
    (get_average storeSeventy [0, 1, 2, 3, 4, 5, 6] = some 70 ∧
      (get_rolling_average storeSeventy 6 7).lookup 6 = some 10) := by
  refine ⟨?_, ?_, ?_, fun t => rfl, ?_⟩
  · intro hz
    have hnil : (days_list.map (fun d => get_daily_total store d none)).filter
        (fun t => 0 < t) = [] := by
      apply List.filter_eq_nil_iff.2
      intro t ht
      rcases List.mem_map.1 ht with ⟨d, hd, rfl⟩
      simp [hz d hd]
    simp [get_average, hnil]
  · intro d0 h0
    simp [get_average, h0]
  · intro hne
    simp only [get_average]
    rw [if_neg (by simpa [List.isEmpty_iff] using hne)]
  · exact ⟨by with_unfolding_all decide, by with_unfolding_all decide⟩

/-- Closed witness for get_average_excludes_zero_days: three days with no
entries yield no average. -/
theorem get_average_excludes_zero_days_witness :
    (∀ d ∈ ([0, 1, 2] : List Int), get_daily_total storeSeventy d none = 0) ∧
    get_average storeSeventy [0, 1, 2] = none :=
  ⟨by with_unfolding_all decide,
   (get_average_excludes_zero_days storeSeventy [0, 1, 2]).1
     (by with_unfolding_all decide)⟩

/- Helper lemmas for the rolling average. -/

theorem fetchedDailyTotal_eq (store : List Entry) (s e d : Int)
    (h1 : s ≤ d) (h2 : d ≤ e) :
    fetchedDailyTotal store s e d = get_daily_total store d none := by
  unfold fetchedDailyTotal
  rw [range_none_eq]
  have hperm :
      List.Perm
        ((sortBy dateHourLe (store.filter (fun x => s ≤ x.date && x.date ≤ e))).filter
          (fun x => x.date == d))
        ((store.filter (fun x => s ≤ x.date && x.date ≤ e)).filter (fun x => x.date == d)) :=
    (perm_sortBy _ _).filter _
  rw [(hperm.map (·.count)).sum_eq, List.filter_filter]
  have hfc : store.filter (fun a => (a.date == d) && (s ≤ a.date && a.date ≤ e)) =
      store.filter (fun a => a.date == d) := by
    apply List.filter_congr
    intro a _
    by_cases hd : a.date = d
    · simp [hd, h1, h2]
    · simp [hd]
  rw [hfc, get_daily_total_eq]

theorem rolling_average_eq (store : List Entry) (end_d : Int) (days : Nat)
    (hdays : 0 < days) :
    get_rolling_average store end_d days =
      (List.range days).map (fun (i : Nat) =>
        (end_d - ((days : Int) - 1) + (i : Int),
         ((((List.range days).map (fun (j : Nat) =>
             fetchedDailyTotal store (end_d - ((days : Int) - 1)) end_d
               (end_d - ((days : Int) - 1) + (i : Int) - ((days : Int) - 1) + (j : Int)))).sum : ℚ)
           / (days : ℚ)))) := by
  unfold get_rolling_average
  apply List.map_congr_left
  intro i hi
  rw [List.mem_range] at hi
  have hfilt : (List.range days).filter
      (fun (j : Nat) =>
        decide (end_d - ((days : Int) - 1) + (i : Int) - ((days : Int) - 1) + (j : Int) ≤
          end_d - ((days : Int) - 1) + (i : Int))) = List.range days := by
    apply List.filter_eq_self.2
    intro j hj
    rw [List.mem_range] at hj
    simp only [decide_eq_true_eq]
    omega
  simp only [hfilt, fetchedDailyTotal, List.length_map, List.length_range]
  rw [if_pos hdays]

/-- C2 counterexample: the claim that every day of the window averages the
trailing daily totals of the store fails when an entry exists before the
fetched range: with a single entry of 10 at date 8, the rolling average with
end date 10 and window 2 reports 0 for date 9, while the mean of the true
daily totals of dates 8 and 9 is 5. -/
theorem rolling_average_claim_counterexample :
    (get_rolling_average storeBeforeWindow 10 2).lookup 9 = some 0 ∧
    get_daily_total storeBeforeWindow 8 none = 10 ∧
    get_daily_total storeBeforeWindow 9 none = 0 ∧
    ((get_daily_total storeBeforeWindow 8 none : ℚ) +
      (get_daily_total storeBeforeWindow 9 none : ℚ)) / 2 = 5 ∧
    (0 : ℚ) ≠ 5 := by
  refine ⟨?_, ?_, ?_, ?_, ?_⟩ <;> with_unfolding_all decide

/-- C2 amended: for every day of the window the rolling average divides by the
full window size, counting days without entries as 0, but sums only the daily
totals of entries fetched from the window range itself, treating days before
that range as 0 even when they hold entries; for the final day, whose trailing
window lies inside the fetched range, the value is exactly the mean of the
true trailing daily totals, 70 over 7 days giving 10. -/
theorem rolling_average_spec (store : List Entry) (end_d : Int) (days : Nat)
    (hdays : 0 < days) :
    (∀ i, i < days →
      (get_rolling_average store end_d days)[i]? =
        some (end_d - ((days : Int) - 1) + (i : Int),
          ((((List.range days).map (fun (j : Nat) =>
              fetchedDailyTotal store (end_d - ((days : Int) - 1)) end_d
                (end_d - ((days : Int) - 1) + (i : Int) - ((days : Int) - 1) + (j : Int)))).sum : ℚ)
            / (days : ℚ)))) ∧
    ((get_rolling_average store end_d days)[days - 1]? =
      some (end_d, ((((List.range days).map (fun (j : Nat) =>
        get_daily_total store (end_d - ((days : Int) - 1) + (j : Int)) none)).sum : ℚ)
          / (days : ℚ)))) := by
  have hmain := rolling_average_eq store end_d days hdays
  constructor
  · intro i hi
    rw [hmain, List.getElem?_map]
    simp [List.getElem?_range, hi]
  · rw [hmain, List.getElem?_map]
    have hlt : days - 1 < days := by omega
    simp only [List.getElem?_range, hlt, if_true, Option.map_some']
    have hdate : end_d - ((days : Int) - 1) + ((days - 1 : Nat) : Int) = end_d := by
      have hcast : ((days - 1 : Nat) : Int) = (days : Int) - 1 := by omega
      rw [hcast]; ring
    have hsum : (List.range days).map (fun (j : Nat) =>
        fetchedDailyTotal store (end_d - ((days : Int) - 1)) end_d
          (end_d - ((days : Int) - 1) + (j : Int))) =
        (List.range days).map (fun (j : Nat) =>
          get_daily_total store (end_d - ((days : Int) - 1) + (j : Int)) none) := by
      apply List.map_congr_left
      intro j hj
      rw [List.mem_range] at hj
      apply fetchedDailyTotal_eq
      · omega
      · omega
    rw [hdate] at *
    rw [hsum]

/-- Closed witness for rolling_average_spec: on the store with a single day of
70 at date 6 and window 7 ending at date 6, the final value is the mean of the
true daily totals and evaluates to 10. -/
theorem rolling_average_spec_witness :
    0 < 7 ∧
    ((get_rolling_average storeSeventy 6 7)[7 - 1]? =
      some (6, ((((List.range 7).map (fun (j : Nat) =>
        get_daily_total storeSeventy (6 - ((7 : Int) - 1) + (j : Int)) none)).sum : ℚ)
          / ((7 : Nat) : ℚ)))) ∧
    (get_rolling_average storeSeventy 6 7).lookup 6 = some 10 :=
  ⟨by decide, (rolling_average_spec storeSeventy 6 7 (by decide)).2,
   by with_unfolding_all decide⟩

/-- C6: every row of the compare_days table, the per-hour rows and the
trailing TOTAL row alike, carries a change column equal to the signed
percentage of value1 against value2 when value2 is positive and the literal
N/A otherwise; each configured hour contributes a row holding the two
floor-selected totals, and the last row is the TOTAL row over the hour
sums. -/
theorem compare_days_spec (store : List Entry) (d1 d2 : Int)
    (hours floors floor_ids : List Nat) :
    let sel := selectedFloors floors floor_ids
    let v1 := fun h => lookupSum (get_entries_for_date store d1 none) sel h
    let v2 := fun h => lookupSum (get_entries_for_date store d2 none) sel h
    let rows := compare_days store d1 d2 hours floors floor_ids
    (∀ h ∈ hours,
      CompareRow.mk (format_hour_slot h) (v1 h) (v2 h) (changeStr (v1 h) (v2 h)) ∈ rows) ∧
    (rows.getLast? = some (CompareRow.mk "TOTAL" ((hours.map v1).sum) ((hours.map v2).sum)
      (changeStr ((hours.map v1).sum) ((hours.map v2).sum)))) ∧
    (∀ row ∈ rows, row.change = if row.value2 > 0 then
      formatChange ((((row.value1 : ℚ) - (row.value2 : ℚ)) / (row.value2 : ℚ)) * 100)
      else "N/A") ∧
    (∀ a b : Int, changeStr a b = if b > 0 then
      formatChange ((((a : ℚ) - (b : ℚ)) / (b : ℚ)) * 100) else "N/A") := by
  intro sel v1 v2 rows
  refine ⟨?_, ?_, ?_, fun a b => rfl⟩
  · intro h hh
    apply List.mem_append_left
    exact List.mem_map.2 ⟨h, hh, rfl⟩
  · show (compare_days store d1 d2 hours floors floor_ids).getLast? = _
    simp only [compare_days]
    rw [List.getLast?_concat]
    simp only [List.map_map]
    rfl
  · intro row hrow
    have hrow2 : row ∈
        (hours.map (fun h => CompareRow.mk (format_hour_slot h) (v1 h) (v2 h)
          (changeStr (v1 h) (v2 h)))) ++
        [CompareRow.mk "TOTAL"
          (((hours.map (fun h => CompareRow.mk (format_hour_slot h) (v1 h) (v2 h)
            (changeStr (v1 h) (v2 h)))).map (fun r => r.value1)).sum)
          (((hours.map (fun h => CompareRow.mk (format_hour_slot h) (v1 h) (v2 h)
            (changeStr (v1 h) (v2 h)))).map (fun r => r.value2)).sum)
          (changeStr
            (((hours.map (fun h => CompareRow.mk (format_hour_slot h) (v1 h) (v2 h)
              (changeStr (v1 h) (v2 h)))).map (fun r => r.value1)).sum)
            (((hours.map (fun h => CompareRow.mk (format_hour_slot h) (v1 h) (v2 h)
              (changeStr (v1 h) (v2 h)))).map (fun r => r.value2)).sum))] := hrow
    rcases List.mem_append.1 hrow2 with hmem | hmem
    · obtain ⟨h, hh, rfl⟩ := List.mem_map.1 hmem
      rfl
    · simp only [List.mem_singleton] at hmem
      subst hmem
      rfl

/-- Closed witness for compare_days_spec: on storeCompareDays the hour-9 row
compares 10 against 5 and shows +100.0%. -/
theorem compare_days_spec_witness :
    ((CompareRow.mk "9 AM" 10 5 "+100.0%").change =
      if (CompareRow.mk "9 AM" 10 5 "+100.0%").value2 > 0 then
        formatChange (((((CompareRow.mk "9 AM" 10 5 "+100.0%").value1 : ℚ) -
          ((CompareRow.mk "9 AM" 10 5 "+100.0%").value2 : ℚ)) /
          ((CompareRow.mk "9 AM" 10 5 "+100.0%").value2 : ℚ)) * 100)
      else "N/A") ∧
    compare_days storeCompareDays 0 1 [9] [1] [] =
      [CompareRow.mk "9 AM" 10 5 "+100.0%", CompareRow.mk "TOTAL" 10 5 "+100.0%"] :=
  ⟨(compare_days_spec storeCompareDays 0 1 [9] [1] []).2.2.1
      (CompareRow.mk "9 AM" 10 5 "+100.0%") (by with_unfolding_all decide),
   by with_unfolding_all decide⟩

/-- C8 counterexample: with exactly one collected day the code never writes
the vs Avg column, so the single row carries no value there, while the claim
as stated says it reports the literal N/A. -/
theorem compare_same_weekday_counterexample :
    (compare_same_weekday storeWeekdayOne 0 0 0 [1] []).map (fun r => r.vsAvg) = [none] ∧
    (none : Option String) ≠ some "N/A" := by
  constructor
  · with_unfolding_all decide
  · decide

theorem compare_same_weekday_cases (store : List Entry) (start_d end_d : Int)
    (wd : Nat) (floors floor_ids : List Nat) :
    compare_same_weekday store start_d end_d wd floors floor_ids =
      if 2 ≤ (get_same_weekday_dates start_d end_d wd).length then
        (get_same_weekday_dates start_d end_d wd).map (fun d =>
          if weekdayAvg store (selectedFloors floors floor_ids)
              (get_same_weekday_dates start_d end_d wd) > 0 then
            WeekdayRow.mk d (floorFilteredTotal store (selectedFloors floors floor_ids) d)
              (some (formatChange
                ((((floorFilteredTotal store (selectedFloors floors floor_ids) d : ℚ) -
                    weekdayAvg store (selectedFloors floors floor_ids)
                      (get_same_weekday_dates start_d end_d wd)) /
                  weekdayAvg store (selectedFloors floors floor_ids)
                    (get_same_weekday_dates start_d end_d wd)) * 100)))
          else WeekdayRow.mk d (floorFilteredTotal store (selectedFloors floors floor_ids) d)
            (some "N/A"))
      else (get_same_weekday_dates start_d end_d wd).map (fun d =>
        WeekdayRow.mk d (floorFilteredTotal store (selectedFloors floors floor_ids) d)
          none) := by
  simp only [compare_same_weekday, weekdayAvg, List.map_map, List.length_map,
    Function.comp_def, ge_iff_le]

/-- C8 amended: compare_same_weekday collects every occurrence of the weekday
in range and each day total over the selected floors; when at least two days
were collected every row reports its percent deviation from the mean of the
collected totals, with N/A when that mean is not positive; when fewer than two
days were collected the vs Avg column is omitted entirely rather than set to
N/A. -/
theorem compare_same_weekday_spec (store : List Entry) (start_d end_d : Int) (wd : Nat)
    (floors floor_ids : List Nat) :
    ((compare_same_weekday store start_d end_d wd floors floor_ids).map
      (fun r => r.row_date) = get_same_weekday_dates start_d end_d wd) ∧
    (∀ r ∈ compare_same_weekday store start_d end_d wd floors floor_ids,
      r.total = floorFilteredTotal store (selectedFloors floors floor_ids) r.row_date) ∧
    (2 ≤ (get_same_weekday_dates start_d end_d wd).length →
      ∀ r ∈ compare_same_weekday store start_d end_d wd floors floor_ids,
        r.vsAvg = some (if weekdayAvg store (selectedFloors floors floor_ids)
            (get_same_weekday_dates start_d end_d wd) > 0 then
          formatChange ((((r.total : ℚ) -
              weekdayAvg store (selectedFloors floors floor_ids)
                (get_same_weekday_dates start_d end_d wd)) /
            weekdayAvg store (selectedFloors floors floor_ids)
              (get_same_weekday_dates start_d end_d wd)) * 100)
          else "N/A")) ∧
    ((get_same_weekday_dates start_d end_d wd).length < 2 →
      ∀ r ∈ compare_same_weekday store start_d end_d wd floors floor_ids,
        r.vsAvg = none) := by
  refine ⟨?_, ?_, ?_, ?_⟩
  · rw [compare_same_weekday_cases]
    by_cases h2 : 2 ≤ (get_same_weekday_dates start_d end_d wd).length
    · rw [if_pos h2, List.map_map]
      have hpt : ∀ d ∈ get_same_weekday_dates start_d end_d wd,
          ((fun r => r.row_date) ∘ (fun d =>
            if weekdayAvg store (selectedFloors floors floor_ids)
                (get_same_weekday_dates start_d end_d wd) > 0 then
              WeekdayRow.mk d (floorFilteredTotal store (selectedFloors floors floor_ids) d)
                (some (formatChange
                  ((((floorFilteredTotal store (selectedFloors floors floor_ids) d : ℚ) -
                      weekdayAvg store (selectedFloors floors floor_ids)
                        (get_same_weekday_dates start_d end_d wd)) /
                    weekdayAvg store (selectedFloors floors floor_ids)
                      (get_same_weekday_dates start_d end_d wd)) * 100)))
            else WeekdayRow.mk d
              (floorFilteredTotal store (selectedFloors floors floor_ids) d)
              (some "N/A"))) d = d := by
        intro d _
        by_cases hp : weekdayAvg store (selectedFloors floors floor_ids)
            (get_same_weekday_dates start_d end_d wd) > 0 <;>
          simp [hp, Function.comp]
      rw [List.map_congr_left hpt, List.map_id']
    · rw [if_neg h2, List.map_map]
      have hpt : ∀ d ∈ get_same_weekday_dates start_d end_d wd,
          ((fun r => r.row_date) ∘ (fun d => WeekdayRow.mk d
            (floorFilteredTotal store (selectedFloors floors floor_ids) d) none)) d = d := by
        intro d _
        rfl
      rw [List.map_congr_left hpt, List.map_id']
  · intro r hr
    rw [compare_same_weekday_cases] at hr
    by_cases h2 : 2 ≤ (get_same_weekday_dates start_d end_d wd).length
    · rw [if_pos h2] at hr
      obtain ⟨d, _, rfl⟩ := List.mem_map.1 hr
      by_cases hp : weekdayAvg store (selectedFloors floors floor_ids)
          (get_same_weekday_dates start_d end_d wd) > 0 <;> simp [hp]
    · rw [if_neg h2] at hr
      obtain ⟨d, _, rfl⟩ := List.mem_map.1 hr
      rfl
  · intro h2 r hr
    rw [compare_same_weekday_cases, if_pos h2] at hr
    obtain ⟨d, _, rfl⟩ := List.mem_map.1 hr
    by_cases hp : weekdayAvg store (selectedFloors floors floor_ids)
        (get_same_weekday_dates start_d end_d wd) > 0 <;> simp [hp]
  · intro h2 r hr
    rw [compare_same_weekday_cases, if_neg (by omega)] at hr
    obtain ⟨d, _, rfl⟩ := List.mem_map.1 hr
    rfl

/-- Closed witness for compare_same_weekday_spec: two collected days with
totals 10 and 30 around the mean 20 give deviations of -50.0% and +50.0%. -/
theorem compare_same_weekday_spec_witness :
    2 ≤ (get_same_weekday_dates 0 7 0).length ∧
    (∀ r ∈ compare_same_weekday storeWeekdayTwo 0 7 0 [1] [],
      r.vsAvg = some (if weekdayAvg storeWeekdayTwo (selectedFloors [1] [])
          (get_same_weekday_dates 0 7 0) > 0 then
        formatChange ((((r.total : ℚ) -
            weekdayAvg storeWeekdayTwo (selectedFloors [1] [])
              (get_same_weekday_dates 0 7 0)) /
          weekdayAvg storeWeekdayTwo (selectedFloors [1] [])
            (get_same_weekday_dates 0 7 0)) * 100)
        else "N/A")) ∧
    compare_same_weekday storeWeekdayTwo 0 7 0 [1] [] =
      [WeekdayRow.mk 0 10 (some "-50.0%"), WeekdayRow.mk 7 30 (some "+50.0%")] :=
  ⟨by decide,
   (compare_same_weekday_spec storeWeekdayTwo 0 7 0 [1] []).2.2.1 (by decide),
   by with_unfolding_all decide⟩

end Footfall
